import Mathlib

/-!
Verification development for the music-library-cleanup repository.

The repository consists of three Python scripts:

* `music_renamer.py` — multi-pass cleaning of music file names and tags;
* `music_metadata_fixer.py` — a larger variant of the same `MusicRenamer`
  class with album organisation, quarantine handling and empty-folder cleanup;
* `album_mapper.py` — grouping of music files into album folders.

Strings are modelled as `String` / `List Char`.  The scripts' regular
expressions are modelled by hand-written deterministic matchers that follow
the Python `re` semantics (leftmost match, greedy repetition, alternation
order) of each concrete pattern.  The inputs handled by the repository are
file names and tag strings; the model treats them at character level.
`unicodedata.normalize("NFKC", s)` is modelled as the identity map, which is
exact on the ASCII strings used throughout this development.
-/

/-- ASCII whitespace, the characters of Python's regex class `\s` and of
`str.strip()`.  Non-ASCII Unicode spaces are not modelled. -/
def isSpaceChar (c : Char) : Bool :=
  c = ' ' || c = '\t' || c = '\n' || c = '\r' || c = '\x0b' || c = '\x0c'

/-- Characters of the regex class `[-_\s]` (used by `trailing_separator_pattern`
and the bitrate pattern of `music_renamer.py`). -/
def isSepClassR (c : Char) : Bool :=
  c = '-' || c = '_' || isSpaceChar c

/-- Characters of the regex class `[\s\-_\.]`. -/
def isSepDotClass (c : Char) : Bool :=
  isSpaceChar c || c = '-' || c = '_' || c = '.'

/-- Characters of Python's regex class `\w` (ASCII model). -/
def isWordCharB (c : Char) : Bool :=
  c.isAlphanum || c = '_'

/-- Characters of the regex class `[a-zA-Z0-9\-]` (domain labels). -/
def isLabelChar (c : Char) : Bool :=
  c.isAlphanum || c = '-'

/-- The separators split on by `re.split(r'([\-_ ])', name)` — note this is a
literal space, not the whole `\s` class. -/
def isSplitSep (c : Char) : Bool :=
  c = '-' || c = '_' || c = ' '

/-- ASCII lower-casing of a character list (model of `str.lower()` /
`re.IGNORECASE` comparisons on the ASCII strings handled here). -/
def lowerL (cs : List Char) : List Char :=
  cs.map Char.toLower

/-- Does pattern `p` occur in `l` starting exactly at index `i`? -/
def matchAt (l p : List Char) (i : Nat) : Bool :=
  (l.drop i).take p.length == p

/-- Does `p` occur anywhere in `l` (Python `p in l`, or `re.search` of a
literal pattern)? -/
def containsSub (p l : List Char) : Bool :=
  (List.range (l.length + 1)).any (fun i => matchAt l p i)

/-- Is the literal `lit` (already lower case) a prefix of `cs` up to ASCII
case (a case-insensitive literal match)? -/
def litAtIC (lit cs : List Char) : Bool :=
  lowerL (cs.take lit.length) == lit

/-- Is the literal `lit` a prefix of `cs` (case-sensitive)? -/
def litAt (lit cs : List Char) : Bool :=
  cs.take lit.length == lit

/-- Remove a trailing run of characters satisfying `p`. -/
def dropTrailing (p : Char → Bool) (cs : List Char) : List Char :=
  (cs.reverse.dropWhile p).reverse

/-- Python `str.strip()` (whitespace at both ends). -/
def pyStrip (cs : List Char) : List Char :=
  dropTrailing isSpaceChar (cs.dropWhile isSpaceChar)

/-- Python `str.strip('-_ ')`, used on removed URL tokens. -/
def stripSepEnds (cs : List Char) : List Char :=
  dropTrailing isSplitSep (cs.dropWhile isSplitSep)

/-- Model of `unicodedata.normalize('NFKC', s)`.  NFKC is the identity on
ASCII strings, which is the domain of every concrete input considered in
this development; the non-ASCII compatibility foldings are not modelled. -/
def nfkc (cs : List Char) : List Char := cs

/-- The invalid-filename characters removed by the scripts. -/
def invalidChars : List Char := ['<', '>', ':', '"', '/', '\\', '|', '?', '*']

/-- Sequential `str.replace(c, '')` over `invalidChars`, i.e. a filter. -/
def removeInvalid (cs : List Char) : List Char :=
  cs.filter (fun c => !invalidChars.contains c)

/-- Value of a decimal digit character. -/
def digitVal (c : Char) : Nat := c.toNat - 48

/-- Decimal value of a digit string (used for the placeholder index of
`__FTPRESERVEn__`). -/
def digitsToNat (cs : List Char) : Nat :=
  cs.foldl (fun a c => 10 * a + digitVal c) 0

/-- Decimal digit character (0 ≤ d ≤ 9; other inputs map to '9'). -/
def digitChar (d : Nat) : Char :=
  if d = 0 then '0' else if d = 1 then '1' else if d = 2 then '2'
  else if d = 3 then '3' else if d = 4 then '4' else if d = 5 then '5'
  else if d = 6 then '6' else if d = 7 then '7' else if d = 8 then '8' else '9'

/-- Fuel-driven decimal rendering of a natural number; `fuel` bounds the
number of divisions by ten and every use passes a sufficient value. -/
def decChars : Nat → Nat → List Char
  | 0, _ => []
  | fuel + 1, n =>
    if n < 10 then [digitChar n]
    else decChars fuel (n / 10) ++ [digitChar (n % 10)]

/-- Model of Python's decimal formatting `str(n)` / `f"{n}"` for a natural
number. -/
def natToDecimal (n : Nat) : List Char :=
  decChars (n + 1) n

/-- Generic left-to-right scan-and-replace engine modelling `re.sub`:
at each position the matcher either reports a match — a positive number of
consumed characters, replacement text and an updated state — after which the
scan resumes past the match, or the scan advances one character.  `fuel`
bounds the number of scan steps; every use passes at least the input length,
which suffices because each step consumes at least one character. -/
def scanSub {σ : Type} (m : σ → List Char → Option (Nat × List Char × σ)) :
    Nat → σ → List Char → List Char × σ
  | 0, s, l => (l, s)
  | _ + 1, s, [] => ([], s)
  | fuel + 1, s, c :: cs =>
    match m s (c :: cs) with
    | some (n, r, s2) =>
      let rest := scanSub m fuel s2 ((c :: cs).drop n)
      (r ++ rest.1, rest.2)
    | none =>
      let rest := scanSub m fuel s cs
      (c :: rest.1, rest.2)

/-- Matcher for the feature-credit pattern
`(\[[^\]]+\]\.ft|ft\.\[[^\]]+\])` (IGNORECASE): a non-empty bracket group
followed by `.ft`, or `ft.` followed by a non-empty bracket group.  Returns
the matched length.  The first alternative starts with `[`, the second with
`f`/`F`, so the regex alternation order is respected by the disjoint cases. -/
def ftMatch (cs : List Char) : Option Nat :=
  match cs with
  | '[' :: rest =>
    let content := rest.takeWhile (fun c => c ≠ ']')
    if content.isEmpty then none
    else
      match rest.drop content.length with
      | ']' :: '.' :: f :: t :: _ =>
        if (f = 'f' || f = 'F') && (t = 't' || t = 'T') then
          some (content.length + 6)
        else none
      | _ => none
  | f :: t :: '.' :: '[' :: rest =>
    if (f = 'f' || f = 'F') && (t = 't' || t = 'T') then
      let content := rest.takeWhile (fun c => c ≠ ']')
      if content.isEmpty then none
      else
        match rest.drop content.length with
        | ']' :: _ => some (content.length + 5)
        | _ => none
    else none
  | _ => none

/-- The placeholder text `__FTPRESERVEk__` substituted for the k-th preserved
feature-credit token. -/
def ftPlaceholder (k : Nat) : List Char :=
  "__FTPRESERVE".data ++ natToDecimal k ++ "__".data

/-- Stateful matcher for the preservation pass: state is the counter and the
list of captured original tokens (`preserved` in the sources). -/
def ftMatcherS (s : Nat × List (List Char)) (cs : List Char) :
    Option (Nat × List Char × (Nat × List (List Char))) :=
  (ftMatch cs).map (fun n => (n, ftPlaceholder s.1, (s.1 + 1, s.2 ++ [cs.take n])))

/-- Run the preservation pass over a name: returns the rewritten text and the
captured tokens. -/
def ftPreserve (cs : List Char) : List Char × List (List Char) :=
  let r := scanSub ftMatcherS (cs.length + 1) (0, []) cs
  (r.1, r.2.2)

/-- Matcher for the restore pattern `__FTPRESERVE(\d+)__`: returns the match
length and the parsed index. -/
def placeholderMatch (cs : List Char) : Option (Nat × Nat) :=
  if litAt "__FTPRESERVE".data cs then
    let ds := (cs.drop 12).takeWhile Char.isDigit
    if ds.isEmpty then none
    else if litAt "__".data (cs.drop (12 + ds.length)) then
      some (12 + ds.length + 2, digitsToNat ds)
    else none
  else none

/-- Matcher that replaces each placeholder with its captured token.  An index
beyond the captured list would raise `IndexError` in the source (an error
path never exercised by the pipeline's own placeholders); the model returns
the empty replacement there. -/
def restoreMatcher (preserved : List (List Char)) (u : Unit) (cs : List Char) :
    Option (Nat × List Char × Unit) :=
  (placeholderMatch cs).map (fun r => (r.1, preserved.getD r.2 [], u))

/-- Restore pass (`re.sub(r'__FTPRESERVE(\d+)__', restore_ft, name)`). -/
def ftRestore (preserved : List (List Char)) (cs : List Char) : List Char :=
  (scanSub (restoreMatcher preserved) (cs.length + 1) () cs).1

/-- Python `os.path.splitext` on a plain file name (no directory
separators): split at the last dot, unless every character before it is a
dot. -/
def pySplitextL (cs : List Char) : List Char × List Char :=
  match cs.reverse.findIdx? (fun c => c = '.') with
  | none => (cs, [])
  | some k =>
    let p := cs.length - 1 - k
    if (cs.take p).any (fun c => c ≠ '.') then (cs.take p, cs.drop p) else (cs, [])

/-! ## music_renamer.py — compiled patterns and `clean_filename` -/

/-- Characters of the class `[\d\s\-_\.]` of the renamer's
`leading_numbers_pattern`. -/
def isLeadClassR (c : Char) : Bool :=
  c.isDigit || isSpaceChar c || c = '-' || c = '_' || c = '.'

/-- One application of `leading_numbers_pattern.sub('', name)` for the
pattern `^[\d\s\-_\.]+|^\[[^\]]*\][\s\-_\.]*`: both alternatives are
anchored, so `re.sub` performs at most one replacement, trying the
character-class alternative first. -/
def leadingSubR (cs : List Char) : List Char :=
  match cs with
  | [] => []
  | c :: rest =>
    if isLeadClassR c then (c :: rest).dropWhile isLeadClassR
    else if c = '[' then
      let content := rest.takeWhile (fun d => d ≠ ']')
      match rest.drop content.length with
      | ']' :: after => after.dropWhile isSepDotClass
      | _ => cs
    else cs

/-- The top-level-domain literals of the website patterns, in alternation
order (`com|co|in|net|ws|io`). -/
def tldList : List (List Char) := ["com".data, "co".data, "in".data, "net".data, "ws".data, "io".data]

/-- Full-string match of `[a-zA-Z0-9\-]+\.(com|co|in|net|ws|io)`: a label
run, a dot, and exactly one of the listed suffixes. -/
def domainCoreFull (cs : List Char) : Bool :=
  let lab := cs.takeWhile isLabelChar
  if lab.isEmpty then false
  else
    match cs.drop lab.length with
    | '.' :: rest => tldList.any (fun t => lowerL rest == t)
    | _ => false

/-- Strip a case-insensitive literal from the front of `cs`. -/
def stripLitIC (lit cs : List Char) : Option (List Char) :=
  if litAtIC lit cs then some (cs.drop lit.length) else none

/-- `website_pattern.fullmatch(part)` of `music_renamer.py`:
`(?:www\.|https?://)?[a-zA-Z0-9\-]+\.(?:com|co|in|net|ws|io)` with
IGNORECASE, matched against the whole part. -/
def websiteFullmatchR (p : List Char) : Bool :=
  domainCoreFull (lowerL p)
  || (stripLitIC "www.".data p).elim false (fun r => domainCoreFull (lowerL r))
  || (stripLitIC "https://".data p).elim false (fun r => domainCoreFull (lowerL r))
  || (stripLitIC "http://".data p).elim false (fun r => domainCoreFull (lowerL r))

/-- `re.split(r'([\-_ ])', name)`: split at every single separator, keeping
the separators as their own parts (empty parts appear between adjacent
separators, as in Python).  `fuel` bounds the recursion; callers pass the
input length plus one, which suffices since each step consumes a separator. -/
def splitKeepSep : Nat → List Char → List (List Char)
  | 0, l => [l]
  | fuel + 1, l =>
    let part := l.takeWhile (fun c => !isSplitSep c)
    match l.drop part.length with
    | [] => [part]
    | s :: rest => part :: [s] :: splitKeepSep fuel rest

/-- Step 2 of `clean_filename`: drop every part that full-matches the website
pattern, recording its stripped form when non-empty; all other parts
(including the separators) are kept in place. -/
def websiteFilterR (cs : List Char) : List Char × List (List Char) :=
  (splitKeepSep (cs.length + 1) cs).foldr
    (fun p acc =>
      if websiteFullmatchR p then
        let tok := stripSepEnds p
        (acc.1, if tok.isEmpty then acc.2 else tok :: acc.2)
      else (p ++ acc.1, acc.2))
    ([], [])

/-- The bitrate literals `320|256|192|160|128|96|64` in alternation order (no
literal is a prefix of another, so at most one can match at a position). -/
def numLits : List (List Char) :=
  ["320".data, "256".data, "192".data, "160".data, "128".data, "96".data, "64".data]

/-- Matcher for the renamer's `bitrate_pattern`
`[-_\s]*(?:320|256|192|160|128|96|64)[-_\s]*k\s*b\s*p\s*s?[-_\s]*`
(IGNORECASE).  All repetitions are greedy; no backtracking can occur because
each repeated class is disjoint from the character that must follow it. -/
def bitrateMatchR (cs : List Char) : Option Nat :=
  let s1 := (cs.takeWhile isSepClassR).length
  let r1 := cs.drop s1
  match numLits.find? (fun l => litAt l r1) with
  | none => none
  | some numl =>
    let r2 := r1.drop numl.length
    let s2 := (r2.takeWhile isSepClassR).length
    match r2.drop s2 with
    | k :: r4 =>
      if k = 'k' || k = 'K' then
        let s3 := (r4.takeWhile isSpaceChar).length
        match r4.drop s3 with
        | b :: r6 =>
          if b = 'b' || b = 'B' then
            let s4 := (r6.takeWhile isSpaceChar).length
            match r6.drop s4 with
            | p :: r8 =>
              if p = 'p' || p = 'P' then
                let s5 := (r8.takeWhile isSpaceChar).length
                let r9 := r8.drop s5
                let sTk := match r9 with
                  | s :: _ => if s = 's' || s = 'S' then 1 else 0
                  | [] => 0
                let s6 := ((r9.drop sTk).takeWhile isSepClassR).length
                some (s1 + numl.length + s2 + 1 + s3 + 1 + s4 + 1 + s5 + sTk + s6)
              else none
            | [] => none
          else none
        | [] => none
      else none
    | [] => none

/-- `bitrate_pattern.sub('', name)` for `music_renamer.py`. -/
def bitrateSubR (cs : List Char) : List Char :=
  (scanSub (fun u l => (bitrateMatchR l).map (fun n => (n, [], u))) (cs.length + 1) () cs).1

/-- `trailing_brackets_pattern.sub('', name)` for the pattern
`[\s\-_\.]*\[[^\]]*\]$`: the name must end with `]`; the opening bracket is
the first `[` after the previous `]` (the bracket content cannot contain
`]`), preceded by a maximal run of the separator class. -/
def trailingBracketsSubR (cs : List Char) : List Char :=
  match cs.reverse with
  | ']' :: revBody =>
    let zoneRev := revBody.takeWhile (fun c => c ≠ ']')
    let zone := zoneRev.reverse
    match zone.findIdx? (fun c => c = '[') with
    | none => cs
    | some q =>
      let p := (revBody.length - zoneRev.length) + q
      dropTrailing isSepDotClass (cs.take p)
  | _ => cs

/-- Matcher for `empty_brackets_pattern` `\[\s*\]`. -/
def emptyBracketsMatchR (cs : List Char) : Option Nat :=
  match cs with
  | '[' :: rest =>
    let ws := rest.takeWhile isSpaceChar
    match rest.drop ws.length with
    | ']' :: _ => some (ws.length + 2)
    | _ => none
  | _ => none

/-- `empty_brackets_pattern.sub('', name)`. -/
def emptyBracketsSubR (cs : List Char) : List Char :=
  (scanSub (fun u l => (emptyBracketsMatchR l).map (fun n => (n, [], u))) (cs.length + 1) () cs).1

/-- `multiple_spaces_pattern.sub(' ', name)` of `music_renamer.py`: the
pattern is the single-character class `\s`, so every whitespace character is
replaced by one space (runs are left as multiple spaces). -/
def wsEachR (cs : List Char) : List Char :=
  cs.map (fun c => if isSpaceChar c then ' ' else c)

/-- The renamer's supported-extension literals (alternation of
`repeated_extension_pattern`). -/
def extList : List (List Char) :=
  ["mp3".data, "flac".data, "wav".data, "aac".data, "ogg".data, "m4a".data,
   "wma".data, "opus".data, "alac".data, "aiff".data, "dsd".data, "dff".data, "dsf".data]

/-- `repeated_extension_pattern.sub(r'.\1', filename)` for
`\.(mp3|…)\.(mp3|…)$` (IGNORECASE): when the last two dot-segments are both
listed extensions, the match is replaced by a dot and the first of them,
i.e. the final `.ext` is dropped. -/
def repeatedExtSubR (cs : List Char) : List Char :=
  let rev := cs.reverse
  let e2 := rev.takeWhile (fun c => c ≠ '.')
  match rev.drop e2.length with
  | '.' :: r2 =>
    let e1 := r2.takeWhile (fun c => c ≠ '.')
    match r2.drop e1.length with
    | '.' :: _ =>
      if extList.any (fun e => lowerL e2.reverse == e)
         && extList.any (fun e => lowerL e1.reverse == e) then
        cs.take (cs.length - (e2.length + 1))
      else cs
    | _ => cs
  | _ => cs

/-- `MusicRenamer.clean_filename` of `music_renamer.py` (lines 105-162):
returns the cleaned file name together with the URL tokens added to
`self.replaced_urls` by this call. -/
def cleanFilenameR (filename : String) : String × List String :=
  let cs0 := repeatedExtSubR filename.data
  let ne := pySplitextL cs0
  let fts := ftPreserve ne.1
  let nm2 := leadingSubR fts.1
  let web := websiteFilterR nm2
  let nm3 := dropTrailing isSepClassR web.1
  let nm4 := bitrateSubR nm3
  let nm5 := trailingBracketsSubR nm4
  let nm6 := emptyBracketsSubR nm5
  let nm7 := wsEachR nm6
  let nm8 := pyStrip nm7
  let nm9 := nfkc nm8
  let nm10 := removeInvalid nm9
  let nm11 := leadingSubR nm10
  let nm12 := ftRestore fts.2 nm11
  let nmF := if nm12.isEmpty then "Unknown Track".data else nm12
  (String.mk (nmF ++ ne.2), web.2.map String.mk)

/-- Matcher for the renamer's `website_pattern` used in substring position
(`clean_text`): optional prefix `www.` / `https://` / `http://` (regex
alternation order), then a label run, a dot and a top-level-domain literal
(first of the alternation that matches; no boundary assertion follows). -/
def domainCoreLen (cs : List Char) : Option Nat :=
  let lab := cs.takeWhile isLabelChar
  if lab.isEmpty then none
  else
    match cs.drop lab.length with
    | '.' :: rest =>
      match tldList.find? (fun t => litAtIC t rest) with
      | some t => some (lab.length + 1 + t.length)
      | none => none
    | _ => none

/-- Substring matcher for the renamer's `website_pattern`. -/
def websiteMatchR (cs : List Char) : Option Nat :=
  match stripLitIC "www.".data cs with
  | some r =>
    match domainCoreLen r with
    | some n => some (4 + n)
    | none => websiteMatchRNoPre cs
  | none =>
    match stripLitIC "https://".data cs with
    | some r =>
      match domainCoreLen r with
      | some n => some (8 + n)
      | none => websiteMatchRNoPre cs
    | none =>
      match stripLitIC "http://".data cs with
      | some r =>
        match domainCoreLen r with
        | some n => some (7 + n)
        | none => websiteMatchRNoPre cs
      | none => websiteMatchRNoPre cs
where
  /-- The empty-prefix alternative. -/
  websiteMatchRNoPre (cs : List Char) : Option Nat := domainCoreLen cs

/-- `website_pattern.sub('', text)` of the renamer's `clean_text`. -/
def websiteSubR (cs : List Char) : List Char :=
  (scanSub (fun u l => (websiteMatchR l).map (fun n => (n, [], u))) (cs.length + 1) () cs).1

/-- `MusicRenamer.clean_text` of `music_renamer.py` (lines 472-503).  The
recording of removed URLs into `self.replaced_urls` is a side set not used
by the claims about this function and is not modelled. -/
def cleanTextR (text : String) : String :=
  if text.data.isEmpty then text
  else
    let fts := ftPreserve text.data
    let t1 := leadingSubR fts.1
    let t2 := websiteSubR t1
    let t3 := bitrateSubR t2
    let t4 := trailingBracketsSubR t3
    let t5 := emptyBracketsSubR t4
    let t6 := wsEachR t5
    let t7 := pyStrip t6
    let t8 := nfkc t7
    String.mk (ftRestore fts.2 t8)

/-- The album branch of `MusicRenamer._clean_id3_tags` in `music_renamer.py`
(lines 576-583): album tags are cleaned by plain `clean_text`, with no
album-specific exception. -/
def cleanAlbumTagRenamer (album : String) : String :=
  cleanTextR album

/-! ## music_metadata_fixer.py — patterns, `clean_text`, album keys -/

/-- Characters of the fixer's `leading_numbers_pattern` class
`[\d\-_\.\[\]\s]`. -/
def isLeadClassF (c : Char) : Bool :=
  c.isDigit || c = '-' || c = '_' || c = '.' || c = '[' || c = ']' || isSpaceChar c

/-- One application of the fixer's `leading_numbers_pattern.sub('', text)`
(`^[\d\-_\.\[\]\s]+`). -/
def leadingSubF (cs : List Char) : List Char :=
  cs.dropWhile isLeadClassF

/-- Substring matcher for the fixer's `website_pattern`
`[-\s_]*([a-zA-Z0-9]([a-zA-Z0-9\-]{0,61}[a-zA-Z0-9])?\.(com|co|in|net|ws|io))[-\s_]*`
(IGNORECASE).  The label cannot contain a dot, so the backtracking of the
bounded inner repetition resolves to: the whole maximal label-character run,
which must start and end with an alphanumeric character and have length at
most 63, followed by a dot and a top-level-domain literal; separator runs on
both sides are greedy. -/
def websiteMatchF (cs : List Char) : Option Nat :=
  let s1 := (cs.takeWhile isSepClassR).length
  let r1 := cs.drop s1
  let run := r1.takeWhile isLabelChar
  match r1 with
  | c :: _ =>
    if c.isAlphanum && run.length ≤ 63 && (run.getLast?.elim false Char.isAlphanum) then
      match r1.drop run.length with
      | '.' :: rest =>
        match tldList.find? (fun t => litAtIC t rest) with
        | some t =>
          let s2 := (((rest.drop t.length)).takeWhile isSepClassR).length
          some (s1 + run.length + 1 + t.length + s2)
        | none => none
      | _ => none
    else none
  | [] => none

/-- `website_pattern.sub('', text)` of the fixer's `clean_text`. -/
def websiteSubF (cs : List Char) : List Char :=
  (scanSub (fun u l => (websiteMatchF l).map (fun n => (n, [], u))) (cs.length + 1) () cs).1

/-- `website_pattern.fullmatch(part)` of the fixer's `clean_filename`. -/
def websiteFullmatchF (p : List Char) : Bool :=
  (websiteMatchF p).elim false (fun n => n = p.length)

/-- Matcher for the fixer's `bitrate_pattern` `\s*\d+\s*[Kk]bps\s*`
(IGNORECASE). -/
def bitrateMatchF (cs : List Char) : Option Nat :=
  let s1 := (cs.takeWhile isSpaceChar).length
  let r1 := cs.drop s1
  let ds := r1.takeWhile Char.isDigit
  if ds.isEmpty then none
  else
    let r2 := r1.drop ds.length
    let s2 := (r2.takeWhile isSpaceChar).length
    let r3 := r2.drop s2
    if litAtIC "kbps".data r3 then
      some (s1 + ds.length + s2 + 4 + ((r3.drop 4).takeWhile isSpaceChar).length)
    else none

/-- `bitrate_pattern.sub('', text)` of the fixer. -/
def bitrateSubF (cs : List Char) : List Char :=
  (scanSub (fun u l => (bitrateMatchF l).map (fun n => (n, [], u))) (cs.length + 1) () cs).1

/-- The fixer's `trailing_brackets_pattern.sub('', text)` for
`\s*\[[^\]]*\]\s*$`: a bracket group, optionally followed by whitespace,
anchored at the end, with a maximal preceding whitespace run. -/
def trailingBracketsSubF (cs : List Char) : List Char :=
  let tws := (cs.reverse.takeWhile isSpaceChar).length
  let core := cs.take (cs.length - tws)
  match core.reverse with
  | ']' :: revBody =>
    let zoneRev := revBody.takeWhile (fun c => c ≠ ']')
    let zone := zoneRev.reverse
    match zone.findIdx? (fun c => c = '[') with
    | none => cs
    | some q =>
      let p := (revBody.length - zoneRev.length) + q
      dropTrailing isSpaceChar (cs.take p)
  | _ => cs

/-- Matcher for the fixer's `empty_brackets_pattern` `\s*\[\s*\]\s*`. -/
def emptyBracketsMatchF (cs : List Char) : Option Nat :=
  let s1 := (cs.takeWhile isSpaceChar).length
  match cs.drop s1 with
  | '[' :: r =>
    let s2 := (r.takeWhile isSpaceChar).length
    match r.drop s2 with
    | ']' :: r2 => some (s1 + 1 + s2 + 1 + (r2.takeWhile isSpaceChar).length)
    | _ => none
  | _ => none

/-- `empty_brackets_pattern.sub('', text)` of the fixer. -/
def emptyBracketsSubF (cs : List Char) : List Char :=
  (scanSub (fun u l => (emptyBracketsMatchF l).map (fun n => (n, [], u))) (cs.length + 1) () cs).1

/-- The fixer's `multiple_spaces_pattern.sub(' ', text)` for `\s+`: each
whitespace run collapses to a single space. -/
def wsCollapseF (cs : List Char) : List Char :=
  (scanSub
    (fun u l =>
      let w := l.takeWhile isSpaceChar
      if w.isEmpty then none else some (w.length, [' '], u))
    (cs.length + 1) () cs).1

/-- `MusicRenamer.clean_text` of `music_metadata_fixer.py` (lines 615-666):
the leading-strip rule is skipped exactly when `is_album` is true.  The
`None`/non-string coercions and the recording of removed URLs are not used
by the claims and are not modelled. -/
def cleanTextF (text : String) (isAlbum : Bool) : String :=
  if text.data.isEmpty then text
  else
    let fts := ftPreserve text.data
    let t1 := if isAlbum then fts.1 else leadingSubF fts.1
    let t2 := websiteSubF t1
    let t3 := bitrateSubF t2
    let t4 := trailingBracketsSubF t3
    let t5 := emptyBracketsSubF t4
    let t6 := wsCollapseF t5
    let t7 := pyStrip t6
    let t8 := nfkc t7
    String.mk (ftRestore fts.2 t8)

/-- The album branch of the fixer's tag-cleaning helpers: every album tag
site (`_clean_id3_tags`, `_clean_vorbis_tags`, `_clean_asf_tags`,
`_clean_mp4_tags`) calls `self.clean_text(original_album, is_album=True)`. -/
def cleanAlbumTagFixer (album : String) : String :=
  cleanTextF album true

/-! ## Album attribute normalisation and album keys -/

/-- Python `str.split()` with no argument: whitespace-separated words, empty
runs dropped.  `fuel` bounds the recursion; callers pass the input length
plus one. -/
def wordsOf : Nat → List Char → List (List Char)
  | 0, _ => []
  | fuel + 1, l =>
    let l1 := l.dropWhile isSpaceChar
    let w := l1.takeWhile (fun c => !isSpaceChar c)
    if w.isEmpty then [] else w :: wordsOf fuel (l1.drop w.length)

/-- `clean_album_name` — identical in `album_mapper.py` (lines 178-202) and
`music_metadata_fixer.py`: sentinel for empty or unknown input, removal of
invalid characters, whitespace collapsing via `' '.join(s.split())`, strip,
and the sentinel again if the result is empty. -/
def cleanAlbumName (album : String) : String :=
  if album.data.isEmpty || album == "Unknown Album" then "Unknown Album"
  else
    let a1 := removeInvalid album.data
    let a2 := List.intercalate [' '] (wordsOf (a1.length + 1) a1)
    let a3 := pyStrip a2
    if a3.isEmpty then "Unknown Album" else String.mk a3

/-- Word-boundary-delimited occurrence of `p` at index `i` of `l`
(the regex `\b p \b` for a pattern of word characters). -/
def wordBoundedAt (l p : List Char) (i : Nat) : Bool :=
  matchAt l p i
  && (i = 0 || !isWordCharB (l.getD (i - 1) ' '))
  && !isWordCharB (l.getD (i + p.length) ' ')

/-- Does `p` occur anywhere in `l` as a word-bounded token? -/
def containsWordBounded (p l : List Char) : Bool :=
  (List.range (l.length + 1)).any (fun i => wordBoundedAt l p i)

/-- Matcher at index `i` for the year pattern `\b(19|20)\d{2}\b` of
`extract_year`. -/
def yearMatchAt (cs : List Char) (i : Nat) : Bool :=
  (i = 0 || !isWordCharB (cs.getD (i - 1) ' '))
  && (matchAt cs "19".data i || matchAt cs "20".data i)
  && (cs.getD (i + 2) ' ').isDigit && (cs.getD (i + 3) ' ').isDigit
  && !isWordCharB (cs.getD (i + 4) ' ')

/-- `extract_year` — identical in `album_mapper.py` (lines 204-222) and
`music_metadata_fixer.py`: the first word-bounded `19xx`/`20xx` run found by
`re.search`, or the empty string. -/
def extractYear (y : String) : String :=
  match (List.range y.data.length).find? (fun i => yearMatchAt y.data i) with
  | some i => String.mk ((y.data.drop i).take 4)
  | none => ""

/-- `AlbumMapper.create_album_folder_name` of `album_mapper.py` (lines
224-253): with a non-empty year, the name is returned unchanged when the
year occurs parenthesised, bracketed, or word-bounded (the three
interpolated patterns `\(year\)`, `\[year\]`, `\byear\b`, searched with
IGNORECASE — vacuous on the all-digit years produced by `extract_year`, for
which this model is faithful); otherwise the year is appended in
parentheses. -/
def createAlbumFolderNameM (name year : String) : String :=
  if year.data.isEmpty then name
  else if containsSub ('(' :: year.data ++ [')']) name.data
       || containsSub ('[' :: year.data ++ [']']) name.data
       || containsWordBounded year.data name.data then name
  else String.mk (name.data ++ ' ' :: '(' :: year.data ++ [')'])

/-- `MusicRenamer.create_album_folder_name` of `music_metadata_fixer.py`
(lines 1031-1049): the year is appended unless it occurs anywhere in the
name as a plain substring (`year not in album_name`). -/
def createAlbumFolderNameF (name year : String) : String :=
  if year.data.isEmpty then name
  else if containsSub year.data name.data then name
  else String.mk (name.data ++ ' ' :: '(' :: year.data ++ [')'])

/-- The grouping key of `process_directory_for_albums` in
`music_metadata_fixer.py` (line 1148): direct interpolation
`f"{album_name} ({year})" if year else album_name` — not
`create_album_folder_name`. -/
def fixerAlbumKey (album year : String) : String :=
  if year.data.isEmpty then album
  else String.mk (album.data ++ ' ' :: '(' :: year.data ++ [')'])

/-! ## Grouping and placement engines -/

/-- Per-item outcome of an album-organisation pass. -/
inductive PlaceOutcome where
  | cleanedOnly
  | skipped
  | moved (dest : String)
deriving DecidableEq

/-- First-occurrence deduplication, mirroring insertion into a Python dict:
keys appear in the order their first item was inserted. -/
def dedupFirst {β : Type} [DecidableEq β] (l : List β) : List β :=
  l.foldl (fun acc k => if k ∈ acc then acc else acc ++ [k]) []

/-- The album groups built by the grouping loops: a Python dict from album
key to the files carrying that key, in first-occurrence key order with
values in item order. -/
def albumGroups {α : Type} (key : α → String) (items : List α) : List (String × List α) :=
  (dedupFirst (items.map key)).map (fun k => (k, items.filter (fun a => key a = k)))

/-- The per-item outcomes of one grouping pass
(`AlbumMapper.process_music_directory`, lines 347-371, and the album loop of
`process_directory_for_albums`): groups of at most three files are skipped
in place; in larger groups every file is moved to the destination container
recomputed from that file's own metadata (`key` is the grouping key, `dest`
the per-file destination computed by `process_file` /
`process_album_file`). -/
def albumOutcomes {α : Type} (key dest : α → String) (items : List α) :
    List (α × PlaceOutcome) :=
  ((albumGroups key items).map (fun g =>
    if g.2.length ≤ 3 then g.2.map (fun a => (a, PlaceOutcome.skipped))
    else g.2.map (fun a => (a, PlaceOutcome.moved (dest a))))).flatten

/-- A media file as seen by `process_directory_for_albums`: its
`Path.parts` (the last component is the file name). -/
structure MediaItem where
  parts : List String
deriving DecidableEq

/-- Case-insensitive test for a `devotional` path component
(`any(part.lower() == 'devotional' for part in file_path.parts)`). -/
def hasDevotionalPart (it : MediaItem) : Bool :=
  it.parts.any (fun p => lowerL p.data == "devotional".data)

/-- The grouping key used by `process_directory_for_albums` for one item,
given the abstract tag lookup `meta` (album string, year string). -/
def fixerKeyOf (meta : MediaItem → String × String) (a : MediaItem) : String :=
  fixerAlbumKey (cleanAlbumName (meta a).1) (extractYear (meta a).2)

/-- The destination container computed by `process_album_file` for one item
(recomputed from the item's own metadata via `create_album_folder_name`). -/
def fixerDestOf (meta : MediaItem → String × String) (a : MediaItem) : String :=
  createAlbumFolderNameF (cleanAlbumName (meta a).1) (extractYear (meta a).2)

/-- `MusicRenamer.process_directory_for_albums` of `music_metadata_fixer.py`
(lines 1131-1182), as a per-item ledger: items with a `devotional` path
component are only passed through `process_file` (file-name/metadata
cleaning in place, never relocated); all other items go through the grouping
loop. -/
def fixerAlbumLedger (meta : MediaItem → String × String) (items : List MediaItem) :
    List (MediaItem × PlaceOutcome) :=
  (items.filter (fun it => hasDevotionalPart it)).map (fun it => (it, PlaceOutcome.cleanedOnly))
  ++ albumOutcomes (fixerKeyOf meta) (fixerDestOf meta)
       (items.filter (fun it => !hasDevotionalPart it))

/-- The grouping key and destination of `album_mapper.py`: both are
`create_album_folder_name(clean_album_name(album), extract_year(year))`. -/
def mapperKeyOf (meta : α → String × String) (a : α) : String :=
  createAlbumFolderNameM (cleanAlbumName (meta a).1) (extractYear (meta a).2)

/-! ## Empty-folder cleanup (`delete_empty_folders`) -/

/-- A directory tree: directories with entries, and files. -/
inductive FsTree where
  | dir (nm : String) (entries : List FsTree)
  | file (nm : String)

mutual
/-- `delete_empty_recursive` of `MusicRenamer.delete_empty_folders`
(`music_metadata_fixer.py`, lines 1231-1268), in apply mode with every
`rmdir` succeeding: returns the node after cleanup (`none` when the
directory was deleted), the number of directories deleted in this subtree,
and the Python return value (`True` for a deleted directory and for a
`devotional`-named directory, which is left untouched without recursing;
`False` otherwise, and for files, which make the parent non-empty). -/
def delNode : FsTree → Option FsTree × Nat × Bool
  | .file nm => (some (.file nm), 0, false)
  | .dir nm entries =>
    if lowerL nm.data == "devotional".data then (some (.dir nm entries), 0, true)
    else
      let r := delChildren entries
      if r.2.2 && r.1.isEmpty then (none, r.2.1 + 1, true)
      else (some (.dir nm r.1), r.2.1, false)

/-- The child loop of `delete_empty_recursive`: processes the entries in
order, collecting the surviving entries, the deletion count, and the
conjunction of the per-child flags (`subdirs_empty`). -/
def delChildren : List FsTree → List FsTree × Nat × Bool
  | [] => ([], 0, true)
  | c :: cs =>
    let rc := delNode c
    let rr := delChildren cs
    match rc.1 with
    | some c2 => (c2 :: rr.1, rc.2.1 + rr.2.1, rc.2.2 && rr.2.2)
    | none => (rr.1, rc.2.1 + rr.2.1, rc.2.2 && rr.2.2)
end

mutual
/-- Number of (case-insensitively) `devotional`-named directories in a
tree. -/
def devCount : FsTree → Nat
  | .file _ => 0
  | .dir nm entries =>
    (if lowerL nm.data == "devotional".data then 1 else 0) + devCountL entries

/-- Number of `devotional`-named directories in a forest. -/
def devCountL : List FsTree → Nat
  | [] => 0
  | c :: cs => devCount c + devCountL cs
end

/-- `devCount` extended to the optional result of `delNode`. -/
def devCountO (o : Option FsTree) : Nat :=
  o.elim 0 devCount

/-! ## Convergence scheduler (`process_directory`) -/

/-- The pass loop of `MusicRenamer.process_directory` (`music_renamer.py`
lines 240-348, `music_metadata_fixer.py` lines 352-461): one pass over the
tree is abstracted as `step`, returning the new tree state and
`changes_in_pass`.  After each pass `total_passes` is incremented; the loop
stops when a pass makes no changes, and otherwise breaks as soon as
`total_passes > 10`.  Returns (total_passes, total_changes). -/
def schedLoop {σ : Type} (step : σ → σ × Nat) (s : σ) (totalPasses totalChanges : Nat) :
    Nat × Nat :=
  let r := step s
  let tp := totalPasses + 1
  let tc := totalChanges + r.2
  if r.2 > 0 then
    if _h : tp > 10 then (tp, tc)
    else schedLoop step r.1 tp tc
  else (tp, tc)
termination_by 11 - totalPasses
decreasing_by omega

/-- `process_directory`'s scheduler from a fresh run
(`total_passes = total_changes = 0`). -/
def runScheduler {σ : Type} (step : σ → σ × Nat) (s : σ) : Nat × Nat :=
  schedLoop step s 0 0

/-! ## Collision resolver -/

/-- The probe name `f"{name_without_ext} ({counter}){ext}"`. -/
def candidateName (stem ext : String) (i : Nat) : String :=
  String.mk (stem.data ++ ' ' :: '(' :: natToDecimal i ++ ')' :: ext.data)

/-- The `while new_path.exists()` probe loop of `process_file`
(`music_renamer.py` lines 190-196, `album_mapper.py` lines 296-302),
with existence modelled as membership in the list of names present in the
destination container.  `fuel` bounds the iterations; the resolver theorem
shows that the fuel passed by `resolveName` always suffices. -/
def probeLoop (existing : List String) (stem ext : String) : Nat → Nat → Option String
  | 0, _ => none
  | fuel + 1, i =>
    if candidateName stem ext i ∈ existing then probeLoop existing stem ext fuel (i + 1)
    else some (candidateName stem ext i)

/-- The collision handling of `process_file`: `desired` is used unchanged
unless it exists in the container and is not the item's own current name;
otherwise the stem/extension split of `desired` is probed with counters
1, 2, …. -/
def resolveName (existing : List String) (selfName desired : String) : Option String :=
  if desired ∈ existing ∧ desired ≠ selfName then
    let se := pySplitextL desired.data
    probeLoop existing (String.mk se.1) (String.mk se.2) (existing.length + 1) 1
  else some desired

/-! ## Spec-side contract for the album key builder -/

/-- Stated from the spec's words (§4.4): the name "already contains the year
in any of three decorations — parenthesized, bracketed, or as a bare
word-bounded token (case-insensitive)".  Case-insensitivity is vacuous on
the all-digit years produced by `extract_year`.  This definition is the
comparison point for the refinement claim about `create_album_folder_name`;
it is deliberately declarative (decompositions of the character list) rather
than a scan. -/
def SpecDecoratedYear (name year : String) : Prop :=
  (∃ s t, name.data = s ++ ('(' :: year.data ++ [')']) ++ t)
  ∨ (∃ s t, name.data = s ++ ('[' :: year.data ++ [']']) ++ t)
  ∨ (∃ s t, name.data = s ++ year.data ++ t
      ∧ (∀ c, s.getLast? = some c → isWordCharB c = false)
      ∧ (∀ c, t.head? = some c → isWordCharB c = false))

/-- Stated from the spec's words (§4.4): the contract of
`buildAlbumKey(name, year)` — empty year returns the name unchanged; a
decorated year returns the name unchanged; otherwise the year is appended
as `name (year)`. -/
def SpecAlbumKeyOk (name year result : String) : Prop :=
  (year.data = [] → result = name)
  ∧ (year.data ≠ [] → SpecDecoratedYear name year → result = name)
  ∧ (year.data ≠ [] → ¬ SpecDecoratedYear name year →
      result.data = name.data ++ (' ' :: '(' :: year.data) ++ [')'])

/-! ## Occurrence lemmas for the substring and word-boundary matchers -/

theorem matchAt_iff_drop (l p : List Char) (i : Nat) (hp : p ≠ []) :
    matchAt l p i = true ↔ i + p.length ≤ l.length ∧ l.drop i = p ++ l.drop (i + p.length) := by
  constructor
  · intro h
    rw [matchAt, beq_iff_eq] at h
    have hip : i ≤ l.length := by
      by_contra hle
      push_neg at hle
      have hnil : l.drop i = [] := by
        apply List.eq_nil_of_length_eq_zero
        rw [List.length_drop]
        omega
      rw [hnil, List.take_nil] at h
      exact hp h.symm
    have hlen : p.length ≤ l.length - i := by
      have := congrArg List.length h
      rw [List.length_take, List.length_drop] at this
      omega
    refine ⟨by omega, ?_⟩
    conv_lhs => rw [(List.take_append_drop p.length (l.drop i)).symm]
    rw [h, List.drop_drop]
  · rintro ⟨hle, hdec⟩
    rw [matchAt, beq_iff_eq, hdec]
    exact List.take_left p _

theorem matchAt_bound {l p : List Char} {i : Nat} (hp : p ≠ []) (h : matchAt l p i = true) :
    i + p.length ≤ l.length :=
  ((matchAt_iff_drop l p i hp).mp h).1

theorem matchAt_getD {l p : List Char} {i : Nat} (hp : p ≠ []) (h : matchAt l p i = true) :
    ∀ k, k < p.length → l.getD (i + k) ' ' = p.getD k ' ' := by
  intro k hk
  have hdec := ((matchAt_iff_drop l p i hp).mp h).2
  have hstep : (l.drop i).getD k ' ' = (p ++ l.drop (i + p.length)).getD k ' ' := by rw [hdec]
  rw [List.getD_eq_getElem?_getD, List.getElem?_drop] at hstep
  rw [List.getD_eq_getElem?_getD, List.getElem?_append_left hk] at hstep
  rw [List.getD_eq_getElem?_getD, hstep, List.getD_eq_getElem?_getD]

theorem matchAt_of_append (s p t : List Char) (hp : p ≠ []) :
    matchAt (s ++ p ++ t) p s.length = true := by
  rw [matchAt_iff_drop _ _ _ hp]
  constructor
  · simp [List.length_append]
  · have h1 : s ++ p ++ t = s ++ (p ++ t) := by rw [List.append_assoc]
    have h2 : (s ++ p ++ t).drop s.length = p ++ t := by rw [h1, List.drop_left]
    have h3 : (s ++ p ++ t).drop (s.length + p.length) = t := by
      have : s.length + p.length = (s ++ p).length := (List.length_append s p).symm
      rw [this, List.drop_left]
    rw [h2, h3]

theorem containsSub_iff (p l : List Char) (hp : p ≠ []) :
    containsSub p l = true ↔ ∃ s t, l = s ++ p ++ t := by
  rw [containsSub, List.any_eq_true]
  constructor
  · rintro ⟨i, _, hm⟩
    have h := (matchAt_iff_drop l p i hp).mp hm
    refine ⟨l.take i, l.drop (i + p.length), ?_⟩
    conv_lhs => rw [(List.take_append_drop i l).symm]
    rw [h.2, List.append_assoc]
  · rintro ⟨s, t, rfl⟩
    refine ⟨s.length, ?_, matchAt_of_append s p t hp⟩
    rw [List.mem_range]
    simp [List.length_append]
    omega

theorem containsSub_of_matchAt {p l : List Char} {i : Nat}
    (hi : i ≤ l.length) (h : matchAt l p i = true) : containsSub p l = true := by
  rw [containsSub, List.any_eq_true]
  exact ⟨i, List.mem_range.mpr (by omega), h⟩

/-! ## Grouping engine lemmas -/

theorem mem_dedupFirst {β : Type} [DecidableEq β] (l : List β) (x : β) :
    x ∈ dedupFirst l ↔ x ∈ l := by
  have aux : ∀ (l acc : List β),
      x ∈ l.foldl (fun acc k => if k ∈ acc then acc else acc ++ [k]) acc ↔ x ∈ acc ∨ x ∈ l := by
    intro l
    induction l with
    | nil => intro acc; simp
    | cons k l ih =>
      intro acc
      rw [List.foldl_cons, ih]
      by_cases hk : k ∈ acc
      · simp only [if_pos hk, List.mem_cons]
        constructor
        · rintro (h | h)
          · exact Or.inl h
          · exact Or.inr (Or.inr h)
        · rintro (h | h | h)
          · exact Or.inl h
          · exact Or.inl (h ▸ hk)
          · exact Or.inr h
      · simp only [if_neg hk, List.mem_append, List.mem_singleton, List.mem_cons]
        tauto
  rw [dedupFirst, aux]
  simp

theorem mem_albumGroups {α : Type} (key : α → String) (items : List α) (g : String × List α) :
    g ∈ albumGroups key items ↔
      g.1 ∈ items.map key ∧ g.2 = items.filter (fun a => key a = g.1) := by
  rw [albumGroups, List.mem_map]
  constructor
  · rintro ⟨k, hk, rfl⟩
    exact ⟨(mem_dedupFirst _ _).mp hk, rfl⟩
  · rintro ⟨h1, h2⟩
    refine ⟨g.1, (mem_dedupFirst _ _).mpr h1, ?_⟩
    rw [← h2]

theorem mem_albumOutcomes {α : Type} (key dest : α → String) (items : List α)
    (a : α) (o : PlaceOutcome) :
    (a, o) ∈ albumOutcomes key dest items ↔
      a ∈ items ∧
      ((o = PlaceOutcome.skipped ∧ (items.filter (fun b => key b = key a)).length ≤ 3) ∨
       (o = PlaceOutcome.moved (dest a) ∧ 3 < (items.filter (fun b => key b = key a)).length)) := by
  rw [albumOutcomes, List.mem_flatten]
  constructor
  · rintro ⟨L, hL, haL⟩
    rw [List.mem_map] at hL
    obtain ⟨g, hg, rfl⟩ := hL
    rw [mem_albumGroups] at hg
    obtain ⟨_, hfil⟩ := hg
    by_cases hlen : g.2.length ≤ 3
    · rw [if_pos hlen] at haL
      rw [List.mem_map] at haL
      obtain ⟨b, hb, hba⟩ := haL
      injection hba with hb1 hb2
      subst hb1
      rw [hfil, List.mem_filter] at hb
      have hkey : key b = g.1 := of_decide_eq_true hb.2
      refine ⟨hb.1, Or.inl ⟨hb2.symm, ?_⟩⟩
      rw [hkey, ← hfil]
      exact hlen
    · rw [if_neg hlen] at haL
      rw [List.mem_map] at haL
      obtain ⟨b, hb, hba⟩ := haL
      injection hba with hb1 hb2
      subst hb1
      rw [hfil, List.mem_filter] at hb
      have hkey : key b = g.1 := of_decide_eq_true hb.2
      refine ⟨hb.1, Or.inr ⟨hb2.symm, ?_⟩⟩
      rw [hkey, ← hfil]
      omega
  · rintro ⟨ha, hcond⟩
    refine ⟨(if (items.filter (fun b => key b = key a)).length ≤ 3 then
        (items.filter (fun b => key b = key a)).map (fun x => (x, PlaceOutcome.skipped))
      else (items.filter (fun b => key b = key a)).map (fun x => (x, PlaceOutcome.moved (dest x)))),
      ?_, ?_⟩
    · rw [List.mem_map]
      refine ⟨(key a, items.filter (fun b => key b = key a)), ?_, ?_⟩
      · rw [mem_albumGroups]
        exact ⟨List.mem_map.mpr ⟨a, ha, rfl⟩, rfl⟩
      · by_cases hlen : (items.filter (fun b => key b = key a)).length ≤ 3
        · rw [if_pos hlen]
        · rw [if_neg hlen]
    · have hmem : a ∈ items.filter (fun b => key b = key a) :=
        List.mem_filter.mpr ⟨ha, decide_eq_true rfl⟩
      rcases hcond with ⟨rfl, hle⟩ | ⟨rfl, hgt⟩
      · rw [if_pos hle, List.mem_map]
        exact ⟨a, hmem, rfl⟩
      · rw [if_neg (by omega), List.mem_map]
        exact ⟨a, hmem, rfl⟩

theorem mem_items_of_mem_albumOutcomes {α : Type} {key dest : α → String} {items : List α}
    {a : α} {o : PlaceOutcome} (h : (a, o) ∈ albumOutcomes key dest items) : a ∈ items :=
  ((mem_albumOutcomes key dest items a o).mp h).1

/-! ## Decimal rendering and the collision resolver -/

theorem digitVal_digitChar {d : Nat} (h : d < 10) : digitVal (digitChar d) = d := by
  interval_cases d <;> decide

theorem digitsToNat_append (l : List Char) (c : Char) :
    digitsToNat (l ++ [c]) = 10 * digitsToNat l + digitVal c := by
  rw [digitsToNat, List.foldl_append]
  rfl

theorem digitsToNat_decChars : ∀ fuel n, n < fuel → digitsToNat (decChars fuel n) = n := by
  intro fuel
  induction fuel with
  | zero => intro n h; omega
  | succ fuel ih =>
    intro n h
    rw [decChars]
    by_cases h10 : n < 10
    · rw [if_pos h10]
      simp [digitsToNat, digitVal_digitChar h10]
    · rw [if_neg h10]
      rw [digitsToNat_append]
      have hdiv : n / 10 < fuel := by
        have : n / 10 < n := Nat.div_lt_self (by omega) (by omega)
        omega
      rw [ih _ hdiv, digitVal_digitChar (Nat.mod_lt n (by omega))]
      omega

theorem natToDecimal_inj {m n : Nat} (h : natToDecimal m = natToDecimal n) : m = n := by
  have hm := digitsToNat_decChars (m + 1) m (by omega)
  have hn := digitsToNat_decChars (n + 1) n (by omega)
  rw [natToDecimal, natToDecimal] at h
  rw [← hm, ← hn, h]

theorem candidateName_inj (stem ext : String) {i j : Nat}
    (h : candidateName stem ext i = candidateName stem ext j) : i = j := by
  rw [candidateName, candidateName] at h
  have hdata : (stem.data ++ (' ' :: '(' :: natToDecimal i)) ++ (')' :: ext.data)
      = (stem.data ++ (' ' :: '(' :: natToDecimal j)) ++ (')' :: ext.data) :=
    congrArg String.data h
  have h1 := List.append_cancel_right hdata
  have h2 := List.append_cancel_left h1
  injection h2 with _ h3
  injection h3 with _ h4
  exact natToDecimal_inj h4

theorem exists_free_candidate (existing : List String) (stem ext : String) :
    ∃ i, 1 ≤ i ∧ i ≤ existing.length + 1 ∧ candidateName stem ext i ∉ existing := by
  by_contra hall
  push_neg at hall
  have hsub : ((List.range (existing.length + 1)).map
      (fun m => candidateName stem ext (m + 1))) ⊆ existing := by
    intro x hx
    rw [List.mem_map] at hx
    obtain ⟨m, hm, rfl⟩ := hx
    rw [List.mem_range] at hm
    exact hall (m + 1) (by omega) (by omega)
  have hnodup : ((List.range (existing.length + 1)).map
      (fun m => candidateName stem ext (m + 1))).Nodup := by
    apply List.Nodup.map ?_ (List.nodup_range _)
    intro x y hxy
    have := candidateName_inj stem ext hxy
    omega
  have hle := (List.subperm_of_subset hnodup hsub).length_le
  rw [List.length_map, List.length_range] at hle
  omega

theorem probeLoop_spec (existing : List String) (stem ext : String) :
    ∀ fuel start, (∃ j, start ≤ j ∧ j < start + fuel ∧ candidateName stem ext j ∉ existing) →
      ∃ i, start ≤ i ∧ i < start + fuel ∧
        probeLoop existing stem ext fuel start = some (candidateName stem ext i) ∧
        candidateName stem ext i ∉ existing ∧
        ∀ m, start ≤ m → m < i → candidateName stem ext m ∈ existing := by
  intro fuel
  induction fuel with
  | zero =>
    rintro start ⟨j, hj1, hj2, _⟩
    omega
  | succ fuel ih =>
    rintro start ⟨j, hj1, hj2, hj3⟩
    by_cases hs : candidateName stem ext start ∈ existing
    · have hex : ∃ j, start + 1 ≤ j ∧ j < (start + 1) + fuel ∧
          candidateName stem ext j ∉ existing := by
        refine ⟨j, ?_, by omega, hj3⟩
        rcases Nat.eq_or_lt_of_le hj1 with heq | hlt
        · exact absurd (heq ▸ hs) hj3
        · omega
      obtain ⟨i, hi1, hi2, hi3, hi4, hi5⟩ := ih (start + 1) hex
      refine ⟨i, by omega, by omega, ?_, hi4, ?_⟩
      · rw [probeLoop, if_pos hs]
        exact hi3
      · intro m hm1 hm2
        rcases Nat.eq_or_lt_of_le hm1 with heq | hlt
        · rw [← heq]
          exact hs
        · exact hi5 m (by omega) hm2
    · refine ⟨start, Nat.le_refl _, by omega, ?_, hs, by omega⟩
      rw [probeLoop, if_neg hs]

/-! ## Index lemmas and the word-boundary bridge -/

theorem getD_append_left {A B : List Char} {i : Nat} (h : i < A.length) (d : Char) :
    (A ++ B).getD i d = A.getD i d := by
  rw [List.getD_eq_getElem?_getD, List.getElem?_append_left h, ← List.getD_eq_getElem?_getD]

theorem getD_append_right {A B : List Char} {i : Nat} (h : A.length ≤ i) (d : Char) :
    (A ++ B).getD i d = B.getD (i - A.length) d := by
  rw [List.getD_eq_getElem?_getD, List.getElem?_append_right h, ← List.getD_eq_getElem?_getD]

theorem getD_of_all_isDigit {p : List Char} (h : p.all Char.isDigit = true)
    {k : Nat} (hk : k < p.length) : (p.getD k ' ').isDigit = true := by
  rw [List.all_eq_true] at h
  rw [List.getD_eq_getElem?_getD, List.getElem?_eq_getElem hk]
  exact h _ (List.getElem_mem hk)

theorem matchAt_of_getD (l p : List Char) (i : Nat)
    (hb : i + p.length ≤ l.length)
    (hc : ∀ k, k < p.length → l.getD (i + k) ' ' = p.getD k ' ') : matchAt l p i = true := by
  rw [matchAt, beq_iff_eq]
  apply List.ext_getElem
  · rw [List.length_take, List.length_drop]
    omega
  · intro k h1 h2
    have hk : k < p.length := h2
    have hlk : i + k < l.length := by omega
    have := hc k hk
    rw [List.getD_eq_getElem?_getD, List.getD_eq_getElem?_getD,
      List.getElem?_eq_getElem hlk, List.getElem?_eq_getElem hk] at this
    simp only [Option.getD_some] at this
    rw [List.getElem_take, List.getElem_drop]
    exact this

theorem matchAt_getD_all {l p : List Char} {i : Nat} (hp : p ≠ []) (h : matchAt l p i = true) :
    ∀ k, k < p.length → l.getD (i + k) ' ' = p.getD k ' ' :=
  matchAt_getD hp h

theorem containsWordBounded_iff (p l : List Char) (hp : p ≠ []) :
    containsWordBounded p l = true ↔
      ∃ s t, l = s ++ p ++ t
        ∧ (∀ c, s.getLast? = some c → isWordCharB c = false)
        ∧ (∀ c, t.head? = some c → isWordCharB c = false) := by
  rw [containsWordBounded, List.any_eq_true]
  constructor
  · rintro ⟨i, _, hw⟩
    rw [wordBoundedAt] at hw
    simp only [Bool.and_eq_true] at hw
    obtain ⟨⟨hm, hleft⟩, hright⟩ := hw
    have hdec := (matchAt_iff_drop l p i hp).mp hm
    refine ⟨l.take i, l.drop (i + p.length), ?_, ?_, ?_⟩
    · conv_lhs => rw [(List.take_append_drop i l).symm]
      rw [hdec.2, List.append_assoc]
    · intro c hc
      have hi0 : i ≠ 0 := by
        intro h0
        rw [h0, List.take_zero] at hc
        exact (Option.noConfusion hc)
      have hil : i ≤ l.length := by
        have := hdec.1
        have hple : 0 < p.length := List.length_pos.mpr hp
        omega
      have hlen : (l.take i).length = i := by
        rw [List.length_take]
        omega
      rw [List.getLast?_eq_getElem?, hlen, List.getElem?_take] at hc
      rw [if_pos (by omega)] at hc
      have hi1 : i - 1 < l.length := by omega
      rw [List.getElem?_eq_getElem hi1] at hc
      injection hc with hc
      simp only [Bool.or_eq_true, decide_eq_true_eq, Bool.not_eq_true'] at hleft
      rcases hleft with h0 | hnw
      · exact absurd h0 hi0
      · rw [List.getD_eq_getElem?_getD, List.getElem?_eq_getElem hi1] at hnw
        simp only [Option.getD_some] at hnw
        rw [← hc]
        exact hnw
    · intro c hc
      rw [List.head?_eq_getElem?, List.getElem?_drop, Nat.add_zero] at hc
      simp only [Bool.not_eq_true'] at hright
      have hlt : i + p.length < l.length := by
        by_contra hge
        rw [List.getElem?_eq_none (by omega)] at hc
        exact Option.noConfusion hc
      rw [List.getElem?_eq_getElem hlt] at hc
      injection hc with hc
      rw [List.getD_eq_getElem?_getD, List.getElem?_eq_getElem hlt] at hright
      simp only [Option.getD_some] at hright
      rw [← hc]
      exact hright
  · rintro ⟨s, t, rfl, hs, ht⟩
    refine ⟨s.length, List.mem_range.mpr (by simp [List.length_append]; omega), ?_⟩
    rw [wordBoundedAt]
    simp only [Bool.and_eq_true]
    refine ⟨⟨matchAt_of_append s p t hp, ?_⟩, ?_⟩
    · by_cases h0 : s.length = 0
      · simp [h0]
      · simp only [Bool.or_eq_true, decide_eq_true_eq, Bool.not_eq_true']
        right
        have hs1 : s.length - 1 < s.length := by omega
        have hside : (s ++ p ++ t).getD (s.length - 1) ' ' = s.getD (s.length - 1) ' ' := by
          rw [List.append_assoc, getD_append_left (by omega)]
        rw [hside]
        have hlast : s.getLast? = some s[s.length - 1] := by
          rw [List.getLast?_eq_getElem?, List.getElem?_eq_getElem hs1]
        have := hs _ hlast
        rw [List.getD_eq_getElem?_getD, List.getElem?_eq_getElem hs1]
        exact this
    · simp only [Bool.not_eq_true']
      have hsp : (s ++ p).length = s.length + p.length := List.length_append s p
      have hside : (s ++ p ++ t).getD (s.length + p.length) ' ' = t.getD 0 ' ' := by
        rw [getD_append_right (by omega)]
        congr 1
        omega
      rw [hside]
      cases t with
      | nil => decide
      | cons c t2 =>
        have := ht c rfl
        simpa using this

/-! ## Year occurrences around the appended decoration -/

theorem containsSub_of_paren {y A : List Char} (hy : y ≠ [])
    (h : containsSub ('(' :: y ++ [')']) A = true) : containsSub y A = true := by
  rw [containsSub_iff _ _ (by simp)] at h
  obtain ⟨s, t, rfl⟩ := h
  rw [containsSub_iff _ _ hy]
  exact ⟨s ++ ['('], [')'] ++ t, by simp⟩

theorem containsSub_of_bracket {y A : List Char} (hy : y ≠ [])
    (h : containsSub ('[' :: y ++ [']']) A = true) : containsSub y A = true := by
  rw [containsSub_iff _ _ (by simp)] at h
  obtain ⟨s, t, rfl⟩ := h
  rw [containsSub_iff _ _ hy]
  exact ⟨s ++ ['['], [']'] ++ t, by simp⟩

theorem containsSub_of_wordBounded {y A : List Char}
    (h : containsWordBounded y A = true) : containsSub y A = true := by
  rw [containsWordBounded, List.any_eq_true] at h
  obtain ⟨i, hi, hw⟩ := h
  rw [wordBoundedAt] at hw
  simp only [Bool.and_eq_true] at hw
  exact containsSub_of_matchAt (by have := List.mem_range.mp hi; omega) hw.1.1

theorem appended_year_unique_pos (A y : List Char) (hy : y ≠ [])
    (hdig : y.all Char.isDigit = true) (hno : containsSub y A = false) :
    ∀ i, matchAt ((A ++ (' ' :: '(' :: y)) ++ [')']) y i = true → i = A.length + 2 := by
  intro i hm
  have hL : 0 < y.length := List.length_pos.mpr hy
  have hMlen : (' ' :: '(' :: y).length = y.length + 2 := by simp
  have hABlen : (A ++ (' ' :: '(' :: y)).length = A.length + y.length + 2 := by
    rw [List.length_append, hMlen]
    omega
  have hlen : ((A ++ (' ' :: '(' :: y)) ++ [')']).length = A.length + y.length + 3 := by
    rw [List.length_append, hABlen]
    simp
  have hb := matchAt_bound hy hm
  rw [hlen] at hb
  have hchars := matchAt_getD hy hm
  have hRsp : ((A ++ (' ' :: '(' :: y)) ++ [')']).getD A.length ' ' = ' ' := by
    rw [getD_append_left (by omega), getD_append_right (Nat.le_refl _)]
    simp
  have hRop : ((A ++ (' ' :: '(' :: y)) ++ [')']).getD (A.length + 1) ' ' = '(' := by
    rw [getD_append_left (by omega), getD_append_right (by omega)]
    simp
  have hRcl : ((A ++ (' ' :: '(' :: y)) ++ [')']).getD (A.length + y.length + 2) ' ' = ')' := by
    rw [getD_append_right (by omega)]
    rw [hABlen]
    simp
  rcases (by omega :
      i + y.length ≤ A.length ∨ (i ≤ A.length ∧ A.length < i + y.length)
      ∨ i = A.length + 1 ∨ i = A.length + 2 ∨ i = A.length + 3) with
    h1 | ⟨h2a, h2b⟩ | h3 | h4 | h5
  · exfalso
    have hmA : matchAt A y i = true := by
      apply matchAt_of_getD A y i (by omega)
      intro k hk
      have := hchars k hk
      rw [getD_append_left (by omega), getD_append_left (by omega)] at this
      exact this
    have := containsSub_of_matchAt (by omega) hmA
    rw [hno] at this
    exact Bool.noConfusion this
  · exfalso
    have hk : A.length - i < y.length := by omega
    have := hchars (A.length - i) hk
    have hidx : i + (A.length - i) = A.length := by omega
    rw [hidx, hRsp] at this
    have hd := getD_of_all_isDigit hdig hk
    rw [← this] at hd
    exact Bool.noConfusion hd
  · exfalso
    have := hchars 0 (by omega)
    rw [Nat.add_zero, h3, hRop] at this
    have hd := getD_of_all_isDigit hdig (k := 0) (by omega)
    rw [← this] at hd
    exact Bool.noConfusion hd
  · exact h4
  · exfalso
    have hk : y.length - 1 < y.length := by omega
    have := hchars (y.length - 1) hk
    have hidx : i + (y.length - 1) = A.length + y.length + 2 := by omega
    rw [hidx, hRcl] at this
    have hd := getD_of_all_isDigit hdig hk
    rw [← this] at hd
    exact Bool.noConfusion hd

/-! ## Scheduler lemmas -/

theorem schedLoop_zero_stop {σ : Type} (step : σ → σ × Nat) (s : σ) (tp tc : Nat)
    (h : (step s).2 = 0) : schedLoop step s tp tc = (tp + 1, tc) := by
  rw [schedLoop]
  simp [h]

theorem schedLoop_passes_le {σ : Type} (step : σ → σ × Nat) :
    ∀ n (s : σ) (tp tc : Nat), 11 - tp ≤ n → tp ≤ 10 → (schedLoop step s tp tc).1 ≤ 11 := by
  intro n
  induction n with
  | zero =>
    intro s tp tc h1 h2
    omega
  | succ n ih =>
    intro s tp tc h1 h2
    rw [schedLoop]
    by_cases hc : (step s).2 > 0
    · simp only [if_pos hc]
      by_cases hd : tp + 1 > 10
      · rw [dif_pos hd]
        exact (by omega : tp + 1 ≤ 11)
      · rw [dif_neg hd]
        exact ih (step s).1 (tp + 1) _ (by omega) (by omega)
    · simp only [if_neg hc]
      omega

/-! ## Quarantine preservation by `delete_empty_folders` -/

theorem delNode_devotional (nm : String) (cs : List FsTree)
    (h : lowerL nm.data = "devotional".data) :
    delNode (FsTree.dir nm cs) = (some (FsTree.dir nm cs), 0, true) := by
  rw [delNode, if_pos (beq_iff_eq.mpr h)]

theorem delNode_preserves_devCount :
    ∀ t : FsTree, devCountO (delNode t).1 = devCount t := by
  have main : ∀ n : Nat,
      (∀ t : FsTree, sizeOf t ≤ n → devCountO (delNode t).1 = devCount t)
      ∧ (∀ cs : List FsTree, sizeOf cs ≤ n → devCountL (delChildren cs).1 = devCountL cs) := by
    intro n
    induction n with
    | zero =>
      constructor
      · intro t ht
        cases t <;> simp_arith at ht
      · intro cs hcs
        cases cs with
        | nil => rw [delChildren]
        | cons c cs2 => simp_arith at hcs
    | succ n ih =>
      constructor
      · intro t ht
        cases t with
        | file nm => rw [delNode, devCount]; rfl
        | dir nm entries =>
          rw [delNode]
          by_cases hdev : (lowerL nm.data == "devotional".data) = true
          · rw [if_pos hdev]
            rfl
          · rw [if_neg hdev]
            have hsz : sizeOf entries ≤ n := by
              have := FsTree.dir.sizeOf_spec nm entries
              omega
            have hrec := ih.2 entries hsz
            by_cases hdel :
                ((delChildren entries).2.2 && (delChildren entries).1.isEmpty) = true
            · simp only [if_pos hdel]
              rw [devCountO, Option.elim, devCount, if_neg hdev]
              simp only [Bool.and_eq_true, List.isEmpty_iff] at hdel
              rw [hdel.2] at hrec
              rw [← hrec, devCountL]
            · simp only [if_neg hdel]
              rw [devCountO, Option.elim, devCount, devCount, if_neg hdev, hrec]
      · intro cs hcs
        cases cs with
        | nil => rw [delChildren]
        | cons c cs2 =>
          rw [delChildren]
          have hsz : sizeOf c ≤ n ∧ sizeOf cs2 ≤ n := by
            have : sizeOf (c :: cs2) = 1 + sizeOf c + sizeOf cs2 := rfl
            omega
          have hc := ih.1 c hsz.1
          have hcs2 := ih.2 cs2 hsz.2
          cases hopt : (delNode c).1 with
          | some c2 =>
            simp only [hopt]
            rw [devCountL, devCountL]
            rw [hopt, devCountO, Option.elim] at hc
            rw [hc, hcs2]
          | none =>
            simp only [hopt]
            rw [devCountL]
            rw [hopt, devCountO, Option.elim] at hc
            rw [← hc, hcs2]
            omega
  intro t
  exact (main (sizeOf t)).1 t (Nat.le_refl _)

/-! ## Bridge between the scanned and declarative decoration tests -/

theorem specDecorated_iff_bool (name year : String) (hy : year.data ≠ []) :
    SpecDecoratedYear name year ↔
      (containsSub ('(' :: year.data ++ [')']) name.data
        || containsSub ('[' :: year.data ++ [']']) name.data
        || containsWordBounded year.data name.data) = true := by
  rw [SpecDecoratedYear]
  simp only [Bool.or_eq_true]
  constructor
  · rintro (⟨s, t, h⟩ | ⟨s, t, h⟩ | ⟨s, t, h, hl, hr⟩)
    · exact Or.inl (Or.inl ((containsSub_iff _ _ (by simp)).mpr ⟨s, t, h⟩))
    · exact Or.inl (Or.inr ((containsSub_iff _ _ (by simp)).mpr ⟨s, t, h⟩))
    · exact Or.inr ((containsWordBounded_iff _ _ hy).mpr ⟨s, t, h, hl, hr⟩)
  · rintro ((h | h) | h)
    · exact Or.inl ((containsSub_iff _ _ (by simp)).mp h)
    · exact Or.inr (Or.inl ((containsSub_iff _ _ (by simp)).mp h))
    · exact Or.inr (Or.inr ((containsWordBounded_iff _ _ hy).mp h))

/-! ## Claim C1 — idempotence of the filename normalizer -/

/-- C1 counterexample: `clean_filename` is not idempotent.  On
`"abc.com[x].mp3"` the first application strips the trailing bracket group
and returns `"abc.com.mp3"` with no extracted token; the second application
then sees `"abc.com"` as a bare separator-delimited domain, removes it,
falls back to the `"Unknown Track"` label, and adds a new entry to the
extracted-token set. -/
theorem C1_counterexample :
    cleanFilenameR "abc.com[x].mp3" = ("abc.com.mp3", [])
    ∧ cleanFilenameR "abc.com.mp3" = ("Unknown Track.mp3", ["abc.com"]) :=
  ⟨by decide, by decide⟩

/-- C1 (amended): `clean_filename` is stable only at fixpoints — whenever an
application leaves the name unchanged, re-applying it returns the identical
result (same cleaned name and the same extracted-token list, so the
`replaced_urls` set gains no new entry).  Genuine one-step idempotence fails
(see the counterexample), which is why `process_directory` re-runs passes
until a pass makes no changes. -/
theorem C1_fixpoint_stable (s : String) (h : (cleanFilenameR s).1 = s) :
    cleanFilenameR ((cleanFilenameR s).1) = cleanFilenameR s := by
  rw [h]

/-- C1 witness: `"Song.mp3"` is a fixpoint of `clean_filename`, and the
amended theorem applies to it. -/
theorem C1_fixpoint_stable_witness :
    (cleanFilenameR "Song.mp3").1 = "Song.mp3"
    ∧ cleanFilenameR ((cleanFilenameR "Song.mp3").1) = cleanFilenameR "Song.mp3" :=
  ⟨by decide, C1_fixpoint_stable "Song.mp3" (by decide)⟩

/-! ## Claim C2 — preservation roundtrip of the feature-credit tokens -/

/-- C2 (code bug): the preservation roundtrip fails when the protected token
is at the start of the name.  For `"[x].ft.mp3"` the token `"[x].ft"` is
replaced by the placeholder `"__FTPRESERVE0__"`, whose leading underscores
are then eaten by the leading-strip rule and whose trailing underscores by
the trailing-separator rule, so the restore pattern no longer matches: the
output is `"FTPRESERVE0.mp3"` — the token is lost (it does not occur in the
output) and a mangled placeholder remnant leaks into the final name,
contradicting the function's own docstring ("preserve [w+].ft and ft.[w+]
patterns"). -/
theorem C2_ft_token_lost :
    cleanFilenameR "[x].ft.mp3" = ("FTPRESERVE0.mp3", [])
    ∧ containsSub "[x].ft".data "FTPRESERVE0.mp3".data = false :=
  ⟨by decide, by decide⟩

/-! ## Claim C3 — no duplicate year in the album folder name -/

/-- C3 counterexample: `AlbumMapper.create_album_folder_name` can duplicate
the year.  For name `"20011"` and year `"2001"` the year occurs in the name
only as a non-word-bounded substring, so none of the three decoration
patterns matches and the year is appended, producing `"20011 (2001)"`,
which contains two non-overlapping occurrences of `"2001"` (at indices 0
and 7). -/
theorem C3_counterexample :
    createAlbumFolderNameM "20011" "2001" = "20011 (2001)"
    ∧ matchAt "20011 (2001)".data "2001".data 0 = true
    ∧ matchAt "20011 (2001)".data "2001".data 7 = true
    ∧ 0 + ("2001".data).length ≤ 7 :=
  ⟨by decide, by decide, by decide, by decide⟩

/-- C3 (amended): when the album name does not already contain the year as a
substring, `create_album_folder_name` introduces exactly one occurrence of
the year: any two occurrence positions in its output coincide, so the
output never contains two non-overlapping occurrences.  (The year is
restricted to the non-empty all-digit strings produced by `extract_year`,
the domain on which the model of the interpolated patterns is exact.) -/
theorem C3_no_duplicate_when_fresh (name year : String) (h1 : year.data ≠ [])
    (h2 : year.data.all Char.isDigit = true)
    (h3 : containsSub year.data name.data = false) :
    ∀ i j, matchAt (createAlbumFolderNameM name year).data year.data i = true →
      matchAt (createAlbumFolderNameM name year).data year.data j = true → i = j := by
  have hyne : ¬ year.data.isEmpty = true := by
    simp only [List.isEmpty_iff]
    exact h1
  have hpar : ¬ containsSub ('(' :: year.data ++ [')']) name.data = true := by
    intro hcontra
    have := containsSub_of_paren h1 hcontra
    rw [h3] at this
    exact Bool.noConfusion this
  have hbr : ¬ containsSub ('[' :: year.data ++ [']']) name.data = true := by
    intro hcontra
    have := containsSub_of_bracket h1 hcontra
    rw [h3] at this
    exact Bool.noConfusion this
  have hwb : ¬ containsWordBounded year.data name.data = true := by
    intro hcontra
    have := containsSub_of_wordBounded hcontra
    rw [h3] at this
    exact Bool.noConfusion this
  have hcond : ¬ (containsSub ('(' :: year.data ++ [')']) name.data
      || containsSub ('[' :: year.data ++ [']']) name.data
      || containsWordBounded year.data name.data) = true := by
    simp only [Bool.or_eq_true]
    rintro ((h | h) | h)
    · exact hpar h
    · exact hbr h
    · exact hwb h
  have hform : (createAlbumFolderNameM name year).data
      = (name.data ++ (' ' :: '(' :: year.data)) ++ [')'] := by
    rw [createAlbumFolderNameM, if_neg hyne, if_neg hcond]
  intro i j hi hj
  rw [hform] at hi hj
  rw [appended_year_unique_pos name.data year.data h1 h2 h3 i hi,
    appended_year_unique_pos name.data year.data h1 h2 h3 j hj]

/-- C3 witness: the amended theorem applied to the spec's own example
`("Greatest Hits", "2001")` rules out a pair of distinct occurrence
positions. -/
theorem C3_no_duplicate_witness :
    ¬ (matchAt (createAlbumFolderNameM "Greatest Hits" "2001").data "2001".data 0 = true
       ∧ matchAt (createAlbumFolderNameM "Greatest Hits" "2001").data "2001".data 15 = true) :=
  fun h => by
    have := C3_no_duplicate_when_fresh "Greatest Hits" "2001"
      (by decide) (by decide) (by decide) 0 15 h.1 h.2
    exact absurd this (by decide)

/-! ## Claim C4 — album key construction contract -/

/-- C4 counterexample: the claim fails on
`MusicRenamer.create_album_folder_name` of `music_metadata_fixer.py`.  With
name `"20011"` and year `"2001"` none of the three decorations is present,
so the contract demands `"20011 (2001)"`; the fixer's implementation tests
plain substring containment (`year not in album_name`), finds `"2001"`
inside `"20011"`, and returns the name unchanged, violating the contract. -/
theorem C4_counterexample :
    createAlbumFolderNameF "20011" "2001" = "20011"
    ∧ ¬ SpecAlbumKeyOk "20011" "2001" (createAlbumFolderNameF "20011" "2001") := by
  refine ⟨by decide, ?_⟩
  rintro ⟨-, -, h3⟩
  have hndec : ¬ SpecDecoratedYear "20011" "2001" := by
    rw [specDecorated_iff_bool _ _ (by decide)]
    decide
  have := h3 (by decide) hndec
  exact absurd this (by decide)

/-- C4 (amended): the contract as stated holds for
`AlbumMapper.create_album_folder_name` of `album_mapper.py` — empty year
returns the name; a parenthesized, bracketed or word-bounded occurrence of
the year leaves the name unchanged; otherwise the year is appended as
`name (year)`.  (The year is restricted to the all-digit strings produced
by `extract_year`, on which the model of the interpolated, case-insensitive
patterns is exact.)  The fixer's variant instead tests plain substring
containment, as exhibited by the counterexample. -/
theorem C4_mapper_meets_contract (name year : String)
    (_hdigits : year.data.all Char.isDigit = true) :
    SpecAlbumKeyOk name year (createAlbumFolderNameM name year) := by
  by_cases hy : year.data = []
  · refine ⟨fun _ => ?_, fun hne => absurd hy hne, fun hne => absurd hy hne⟩
    rw [createAlbumFolderNameM, if_pos (by simp [hy])]
  · have hyne : ¬ year.data.isEmpty = true := by
      simp only [List.isEmpty_iff]
      exact hy
    refine ⟨fun h => absurd h hy, ?_, ?_⟩
    · intro _ hdec
      rw [createAlbumFolderNameM, if_neg hyne,
        if_pos ((specDecorated_iff_bool name year hy).mp hdec)]
    · intro _ hndec
      rw [createAlbumFolderNameM, if_neg hyne,
        if_neg (fun hb => hndec ((specDecorated_iff_bool name year hy).mpr hb))]

/-- C4 witness: the amended theorem at the spec's example
`("Greatest Hits", "2001")`. -/
theorem C4_mapper_meets_contract_witness :
    SpecAlbumKeyOk "Greatest Hits" "2001" (createAlbumFolderNameM "Greatest Hits" "2001") :=
  C4_mapper_meets_contract "Greatest Hits" "2001" (by decide)

/-! ## Claim C5 — collision resolver correctness and probe bound -/

/-- C5 (confirmed): the collision resolver returns the desired name
unchanged when it is free (or matches only the item's own current name);
otherwise it deterministically returns the first probe
`stem (i)ext` (counters 1, 2, …) that is not among the existing names,
with `i` at most the number of existing names plus one — so at most `k + 1`
probes for a container holding `k` names — and every earlier probe did
collide. -/
theorem C5_resolver_correct (existing : List String) (selfName desired : String) :
    ((desired ∉ existing ∨ desired = selfName) →
      resolveName existing selfName desired = some desired)
    ∧ (desired ∈ existing → desired ≠ selfName →
        ∃ i, 1 ≤ i ∧ i ≤ existing.length + 1 ∧
          resolveName existing selfName desired
            = some (candidateName (String.mk (pySplitextL desired.data).1)
                (String.mk (pySplitextL desired.data).2) i) ∧
          candidateName (String.mk (pySplitextL desired.data).1)
              (String.mk (pySplitextL desired.data).2) i ∉ existing ∧
          ∀ m, 1 ≤ m → m < i →
            candidateName (String.mk (pySplitextL desired.data).1)
                (String.mk (pySplitextL desired.data).2) m ∈ existing) := by
  constructor
  · intro h
    rw [resolveName, if_neg]
    rcases h with h | h
    · exact fun hc => h hc.1
    · exact fun hc => hc.2 h
  · intro h1 h2
    have hres : resolveName existing selfName desired
        = probeLoop existing (String.mk (pySplitextL desired.data).1)
            (String.mk (pySplitextL desired.data).2) (existing.length + 1) 1 := by
      rw [resolveName, if_pos ⟨h1, h2⟩]
    obtain ⟨i0, hi1, hi2, hfree⟩ := exists_free_candidate existing
      (String.mk (pySplitextL desired.data).1) (String.mk (pySplitextL desired.data).2)
    obtain ⟨i, ha, hb, hc, hd, he⟩ := probeLoop_spec existing
      (String.mk (pySplitextL desired.data).1) (String.mk (pySplitextL desired.data).2)
      (existing.length + 1) 1 ⟨i0, hi1, by omega, hfree⟩
    refine ⟨i, ha, by omega, ?_, hd, fun m hm1 hm2 => he m hm1 hm2⟩
    rw [hres, hc]

/-- C5 witness: resolving `"Song.mp3"` against a container already holding
`"Song.mp3"` and `"Song (1).mp3"` (the spec's example 5) succeeds at probe
2 within the bound. -/
theorem C5_resolver_correct_witness :
    resolveName ["Song.mp3", "Song (1).mp3"] "other.mp3" "Song.mp3" = some "Song (2).mp3"
    ∧ ∃ i, 1 ≤ i ∧ i ≤ 3 ∧
        resolveName ["Song.mp3", "Song (1).mp3"] "other.mp3" "Song.mp3"
          = some (candidateName (String.mk (pySplitextL "Song.mp3".data).1)
              (String.mk (pySplitextL "Song.mp3".data).2) i) ∧
        candidateName (String.mk (pySplitextL "Song.mp3".data).1)
            (String.mk (pySplitextL "Song.mp3".data).2) i ∉ ["Song.mp3", "Song (1).mp3"] ∧
        ∀ m, 1 ≤ m → m < i →
          candidateName (String.mk (pySplitextL "Song.mp3".data).1)
              (String.mk (pySplitextL "Song.mp3".data).2) m ∈ ["Song.mp3", "Song (1).mp3"] :=
  ⟨by decide,
    (C5_resolver_correct ["Song.mp3", "Song (1).mp3"] "other.mp3" "Song.mp3").2
      (by decide) (by decide)⟩

/-! ## Claim C6 — convergence bound of the pass scheduler -/

/-- C6 counterexample: the scheduler can run 11 passes, not 10.  With a pass
body that always reports one change, `process_directory`'s loop increments
`total_passes` to 11 before the safety check `total_passes > 10` fires, so
an eleventh pass runs before it stops. -/
theorem C6_counterexample : (runScheduler (fun _ : Unit => ((), 1)) ()).1 = 11 := by
  simp [runScheduler, schedLoop]

/-- C6 (amended): the scheduler always terminates within eleven passes —
the check `total_passes > 10` runs after the increment, so the realized
ceiling is 11, surfaced as a warning — and it stops immediately after the
first pass when that pass makes zero changes. -/
theorem C6_pass_bound :
    (∀ (σ : Type) (step : σ → σ × Nat) (s : σ), (runScheduler step s).1 ≤ 11)
    ∧ (∀ (σ : Type) (step : σ → σ × Nat) (s : σ),
        (step s).2 = 0 → runScheduler step s = (1, 0)) := by
  constructor
  · intro σ step s
    exact schedLoop_passes_le step 11 s 0 0 (by omega) (by omega)
  · intro σ step s h
    rw [runScheduler, schedLoop_zero_stop step s 0 0 h]

/-- C6 witness: a pass body making no changes stops the scheduler after one
pass. -/
theorem C6_pass_bound_witness :
    runScheduler (fun _ : Unit => ((), 0)) () = (1, 0)
    ∧ (runScheduler (fun _ : Unit => ((), 0)) ()).1 ≤ 11 :=
  ⟨C6_pass_bound.2 Unit (fun _ => ((), 0)) () rfl,
    C6_pass_bound.1 Unit (fun _ => ((), 0)) ()⟩

/-! ## Claim C7 — album-name cleaning preserves leading numerals -/

/-- C7 counterexample: the claim fails on `music_renamer.py`, whose
`clean_text` has no album exception: its ID3 album branch
(`_clean_id3_tags`, the path modelled by `cleanAlbumTagRenamer`) strips the
leading digits of the album `"2001 Hits"`, returning `"Hits"` instead of
preserving the numerals. -/
theorem C7_counterexample :
    cleanAlbumTagRenamer "2001 Hits" = "Hits" ∧ "Hits" ≠ "2001 Hits" :=
  ⟨by decide, by decide⟩

/-- C7 (amended): the divergence holds in `music_metadata_fixer.py` — its
`clean_text` takes an `is_album` flag that skips the leading-strip rule,
and every album-tag call site passes `is_album=True` (modelled by
`cleanAlbumTagFixer`), so the album `"2001 Hits"` keeps its digits there,
while the same text cleaned as a non-album string, and the album path of
`music_renamer.py`, both lose them. -/
theorem C7_fixer_album_preserves :
    cleanAlbumTagFixer "2001 Hits" = "2001 Hits"
    ∧ cleanTextF "2001 Hits" false = "Hits"
    ∧ cleanAlbumTagRenamer "2001 Hits" = "Hits"
    ∧ ∀ t : String, cleanAlbumTagFixer t = cleanTextF t true :=
  ⟨by decide, by decide, by decide, fun _ => rfl⟩

/-! ## Claim C8 — grouping threshold and placement -/

/-- C8 counterexample: in `music_metadata_fixer.py` the members of a large
group are not moved into the container named by their grouping key.  With
four files whose metadata is album `"Best of 2001"`, year `"2001"`, the
grouping key (direct interpolation) is `"Best of 2001 (2001)"`, but
`process_album_file` recomputes the destination with
`create_album_folder_name`, which suppresses the year because it already
occurs in the album name, so the files are moved into `"Best of 2001"`
instead. -/
theorem C8_counterexample :
    fixerKeyOf (fun _ => ("Best of 2001", "2001")) ⟨["a.mp3"]⟩ = "Best of 2001 (2001)"
    ∧ (MediaItem.mk ["a.mp3"], PlaceOutcome.moved "Best of 2001") ∈
        fixerAlbumLedger (fun _ => ("Best of 2001", "2001"))
          [⟨["a.mp3"]⟩, ⟨["b.mp3"]⟩, ⟨["c.mp3"]⟩, ⟨["d.mp3"]⟩]
    ∧ (MediaItem.mk ["a.mp3"], PlaceOutcome.moved "Best of 2001 (2001)") ∉
        fixerAlbumLedger (fun _ => ("Best of 2001", "2001"))
          [⟨["a.mp3"]⟩, ⟨["b.mp3"]⟩, ⟨["c.mp3"]⟩, ⟨["d.mp3"]⟩] :=
  ⟨by decide, by decide, by decide⟩

/-- C8 (amended): the threshold behaviour holds as claimed — in a grouping
pass an item is recorded as skipped exactly when its group has at most
three members, and is moved exactly when its group has more than three
members.  In `album_mapper.py` the destination always equals the item's
album key (grouping key and destination are the same
`create_album_folder_name` computation, the first conjunct with
`dest = key`); in `music_metadata_fixer.py` the destination of a moved item
is `create_album_folder_name(album, year)`, which can differ from the
grouping key when the album name already contains the year (second
conjunct; see the counterexample). -/
theorem C8_threshold_placement :
    (∀ (α : Type) (key : α → String) (items : List α) (a : α), a ∈ items →
      (((a, PlaceOutcome.skipped) ∈ albumOutcomes key key items ↔
          (items.filter (fun b => key b = key a)).length ≤ 3)
        ∧ ((a, PlaceOutcome.moved (key a)) ∈ albumOutcomes key key items ↔
          3 < (items.filter (fun b => key b = key a)).length)
        ∧ ∀ d, (a, PlaceOutcome.moved d) ∈ albumOutcomes key key items → d = key a))
    ∧ (∀ (meta : MediaItem → String × String) (items : List MediaItem)
        (it : MediaItem) (d : String),
        (it, PlaceOutcome.moved d) ∈ fixerAlbumLedger meta items → d = fixerDestOf meta it) := by
  constructor
  · intro α key items a ha
    refine ⟨⟨?_, ?_⟩, ⟨?_, ?_⟩, ?_⟩
    · intro h
      rcases ((mem_albumOutcomes key key items a PlaceOutcome.skipped).mp h).2 with
        ⟨_, hle⟩ | ⟨habs, _⟩
      · exact hle
      · exact PlaceOutcome.noConfusion habs
    · intro hle
      exact (mem_albumOutcomes key key items a PlaceOutcome.skipped).mpr
        ⟨ha, Or.inl ⟨rfl, hle⟩⟩
    · intro h
      rcases ((mem_albumOutcomes key key items a (PlaceOutcome.moved (key a))).mp h).2 with
        ⟨habs, _⟩ | ⟨_, hgt⟩
      · exact PlaceOutcome.noConfusion habs
      · exact hgt
    · intro hgt
      exact (mem_albumOutcomes key key items a (PlaceOutcome.moved (key a))).mpr
        ⟨ha, Or.inr ⟨rfl, hgt⟩⟩
    · intro d h
      rcases ((mem_albumOutcomes key key items a (PlaceOutcome.moved d)).mp h).2 with
        ⟨habs, _⟩ | ⟨hmv, _⟩
      · exact PlaceOutcome.noConfusion habs
      · injection hmv with hd
  · intro meta items it d h
    rw [fixerAlbumLedger, List.mem_append] at h
    rcases h with h | h
    · rw [List.mem_map] at h
      obtain ⟨b, _, hb⟩ := h
      injection hb with _ habs
      exact PlaceOutcome.noConfusion habs
    · rcases ((mem_albumOutcomes _ _ _ it (PlaceOutcome.moved d)).mp h).2 with
        ⟨habs, _⟩ | ⟨hmv, _⟩
      · exact PlaceOutcome.noConfusion habs
      · injection hmv with hd

/-- C8 witness: the spec's example — seven items, five sharing key `"A
(2001)"` and two sharing key `"B"` — has the five-item group moved to its
key and the two-item group skipped. -/
theorem C8_threshold_placement_witness :
    (((0 : Nat), PlaceOutcome.moved "A (2001)") ∈
        albumOutcomes (fun n : Nat => if n < 5 then "A (2001)" else "B")
          (fun n : Nat => if n < 5 then "A (2001)" else "B") [0, 1, 2, 3, 4, 5, 6]
      ↔ 3 < ([0, 1, 2, 3, 4, 5, 6].filter
          (fun b : Nat => (if b < 5 then "A (2001)" else "B")
            = (if (0 : Nat) < 5 then "A (2001)" else "B"))).length)
    ∧ (((5 : Nat), PlaceOutcome.skipped) ∈
        albumOutcomes (fun n : Nat => if n < 5 then "A (2001)" else "B")
          (fun n : Nat => if n < 5 then "A (2001)" else "B") [0, 1, 2, 3, 4, 5, 6]
      ↔ ([0, 1, 2, 3, 4, 5, 6].filter
          (fun b : Nat => (if b < 5 then "A (2001)" else "B")
            = (if (5 : Nat) < 5 then "A (2001)" else "B"))).length ≤ 3) :=
  ⟨((C8_threshold_placement.1 Nat (fun n => if n < 5 then "A (2001)" else "B")
      [0, 1, 2, 3, 4, 5, 6] 0 (by decide)).2).1,
    ((C8_threshold_placement.1 Nat (fun n => if n < 5 then "A (2001)" else "B")
      [0, 1, 2, 3, 4, 5, 6] 5 (by decide)).1)⟩

/-! ## Claim C9 — quarantine exclusion -/

/-- C9 (confirmed): items with a path component equal (case-insensitively)
to `devotional` are only passed through file cleaning — they appear in the
album-organisation ledger as cleaned-in-place and are never moved to any
container — and `delete_empty_folders` never deletes a `devotional`-named
directory: the cleanup preserves the number of such directories in the
tree, and on a `devotional`-named directory it returns immediately without
recursing, even when the directory is empty. -/
theorem C9_quarantine :
    (∀ (meta : MediaItem → String × String) (items : List MediaItem) (it : MediaItem),
      it ∈ items → hasDevotionalPart it = true →
      ((it, PlaceOutcome.cleanedOnly) ∈ fixerAlbumLedger meta items
        ∧ ∀ d, (it, PlaceOutcome.moved d) ∉ fixerAlbumLedger meta items))
    ∧ (∀ t : FsTree, devCountO (delNode t).1 = devCount t)
    ∧ (∀ (nm : String) (cs : List FsTree), lowerL nm.data = "devotional".data →
        delNode (FsTree.dir nm cs) = (some (FsTree.dir nm cs), 0, true)) := by
  refine ⟨?_, delNode_preserves_devCount, delNode_devotional⟩
  intro meta items it hin hdev
  constructor
  · rw [fixerAlbumLedger, List.mem_append]
    left
    rw [List.mem_map]
    exact ⟨it, List.mem_filter.mpr ⟨hin, hdev⟩, rfl⟩
  · intro d h
    rw [fixerAlbumLedger, List.mem_append] at h
    rcases h with h | h
    · rw [List.mem_map] at h
      obtain ⟨b, _, hb⟩ := h
      injection hb with _ habs
      exact PlaceOutcome.noConfusion habs
    · have hit := mem_items_of_mem_albumOutcomes h
      rw [List.mem_filter] at hit
      rw [hdev] at hit
      exact Bool.noConfusion hit.2

/-- C9 witness: a concrete devotional-pathed item is cleaned in place and
not moved, and an empty `Devotional` directory survives the cleanup. -/
theorem C9_quarantine_witness :
    ((MediaItem.mk ["Music", "Devotional", "song.mp3"], PlaceOutcome.cleanedOnly) ∈
        fixerAlbumLedger (fun _ => ("X", "1999")) [⟨["Music", "Devotional", "song.mp3"]⟩]
      ∧ ∀ d, (MediaItem.mk ["Music", "Devotional", "song.mp3"], PlaceOutcome.moved d) ∉
        fixerAlbumLedger (fun _ => ("X", "1999")) [⟨["Music", "Devotional", "song.mp3"]⟩])
    ∧ delNode (FsTree.dir "Devotional" []) = (some (FsTree.dir "Devotional" []), 0, true) :=
  ⟨C9_quarantine.1 (fun _ => ("X", "1999")) [⟨["Music", "Devotional", "song.mp3"]⟩]
      ⟨["Music", "Devotional", "song.mp3"]⟩ (by decide) (by decide),
    C9_quarantine.2.2 "Devotional" [] (by decide)⟩

/-! ## Claim C10 — idempotence of the album key builder -/

/-- C10 (confirmed): applying `create_album_folder_name` a second time to
its own output with the same year returns that output unchanged, for both
the `album_mapper.py` and the `music_metadata_fixer.py` implementation —
after the year has been appended once, the parenthesized occurrence (or,
for the fixer, the plain substring occurrence) is detected and nothing is
appended again.  (The year is restricted to the all-digit strings produced
by `extract_year`, on which the model of the mapper's interpolated patterns
is exact.) -/
theorem C10_album_key_idempotent (name year : String)
    (_hdigits : year.data.all Char.isDigit = true) :
    createAlbumFolderNameM (createAlbumFolderNameM name year) year
        = createAlbumFolderNameM name year
    ∧ createAlbumFolderNameF (createAlbumFolderNameF name year) year
        = createAlbumFolderNameF name year := by
  constructor
  · by_cases hy : year.data.isEmpty = true
    · have h1 : createAlbumFolderNameM name year = name := by
        rw [createAlbumFolderNameM, if_pos hy]
      rw [h1, createAlbumFolderNameM, if_pos hy]
    · by_cases hdec : (containsSub ('(' :: year.data ++ [')']) name.data
          || containsSub ('[' :: year.data ++ [']']) name.data
          || containsWordBounded year.data name.data) = true
      · have h1 : createAlbumFolderNameM name year = name := by
          rw [createAlbumFolderNameM, if_neg hy, if_pos hdec]
        rw [h1, createAlbumFolderNameM, if_neg hy, if_pos hdec]
      · have h1 : createAlbumFolderNameM name year
            = String.mk (name.data ++ ' ' :: '(' :: year.data ++ [')']) := by
          rw [createAlbumFolderNameM, if_neg hy, if_neg hdec]
        have hyne : year.data ≠ [] := by
          simpa [List.isEmpty_iff] using hy
        have hsub : containsSub ('(' :: year.data ++ [')'])
            (String.mk (name.data ++ ' ' :: '(' :: year.data ++ [')'])).data = true := by
          rw [containsSub_iff _ _ (by simp)]
          exact ⟨name.data ++ [' '], [], by simp⟩
        rw [h1, createAlbumFolderNameM, if_neg hy,
          if_pos (show _ = true by
            simp only [Bool.or_eq_true]
            exact Or.inl (Or.inl hsub))]
  · by_cases hy : year.data.isEmpty = true
    · have h1 : createAlbumFolderNameF name year = name := by
        rw [createAlbumFolderNameF, if_pos hy]
      rw [h1, createAlbumFolderNameF, if_pos hy]
    · by_cases hdec : containsSub year.data name.data = true
      · have h1 : createAlbumFolderNameF name year = name := by
          rw [createAlbumFolderNameF, if_neg hy, if_pos hdec]
        rw [h1, createAlbumFolderNameF, if_neg hy, if_pos hdec]
      · have h1 : createAlbumFolderNameF name year
            = String.mk (name.data ++ ' ' :: '(' :: year.data ++ [')']) := by
          rw [createAlbumFolderNameF, if_neg hy, if_neg hdec]
        have hyne : year.data ≠ [] := by
          simpa [List.isEmpty_iff] using hy
        have hsub : containsSub year.data
            (String.mk (name.data ++ ' ' :: '(' :: year.data ++ [')'])).data = true := by
          rw [containsSub_iff _ _ hyne]
          exact ⟨name.data ++ [' ', '('], [')'], by simp⟩
        rw [h1, createAlbumFolderNameF, if_neg hy, if_pos hsub]

/-- C10 witness: idempotence at `("Greatest Hits", "2001")`. -/
theorem C10_album_key_idempotent_witness :
    createAlbumFolderNameM (createAlbumFolderNameM "Greatest Hits" "2001") "2001"
        = createAlbumFolderNameM "Greatest Hits" "2001"
    ∧ createAlbumFolderNameF (createAlbumFolderNameF "Greatest Hits" "2001") "2001"
        = createAlbumFolderNameF "Greatest Hits" "2001" :=
  C10_album_key_idempotent "Greatest Hits" "2001" (by decide)
